import Mathlib

/-!
Verification of the incremental IMAP response parser and its client layer.

The Go source (`imap.go`) is shallowly embedded here: bytes are `Nat`
(always < 256 in practice, only equalities and range tests matter),
byte slices are `List Nat`, the parser state machine `Response.Feed`
becomes the pure step function `feedByte` threaded by `feed`, and the
client's read loop becomes `feedChunks`.
-/

namespace Imap

/-- ASCII bytes of a Lean string literal.  All strings the Go code
compares against are ASCII, so `Char.toNat` agrees with the bytes. -/
def bytes (s : String) : List Nat := s.data.map Char.toNat

/-- Byte-wise ASCII upper-casing, the effect of Go `strings.ToUpper`
on the ASCII-only slices it is applied to in this code. -/
def upperByte (c : Nat) : Nat := if 97 ≤ c ∧ c ≤ 122 then c - 32 else c

/-- Membership in the cutset `" \t\n\r"` used by `strings.Trim` in `Search`. -/
def isCut (c : Nat) : Bool := c = 32 || c = 9 || c = 10 || c = 13

/-- Go `strings.Trim(s, " \t\n\r")`: remove cutset bytes from both ends. -/
def trimCut (s : List Nat) : List Nat :=
  ((s.dropWhile isCut).reverse.dropWhile isCut).reverse

/-- Go `strings.Split(s, " ")`: split at every single space byte. -/
def splitSpace : List Nat → List (List Nat)
  | [] => [[]]
  | c :: rest =>
    if c = 32 then [] :: splitSpace rest
    else
      match splitSpace rest with
      | h :: t => (c :: h) :: t
      | [] => [[c]]

/-- Space-separated join (Go `strings.Join(toks, " ")`); inverse of
`splitSpace` on space-free tokens, used to state the Search claim. -/
def joinSpace : List (List Nat) → List Nat
  | [] => []
  | [t] => t
  | t :: ts => t ++ 32 :: joinSpace ts

/-- Go `strconv.Atoi` restricted to the strings that can reach it here:
`reply.length` only ever holds ASCII digit bytes.  `Atoi` fails on the
empty string and — with `ErrRange` — on digit strings whose value
exceeds the platform `int` range (64-bit here, `2^63 - 1`); otherwise
it returns the decimal value. -/
def atoiDigits (s : List Nat) : Option Nat :=
  if s.isEmpty then none
  else if s.all (fun c => decide (48 ≤ c ∧ c ≤ 57)) then
    if s.foldl (fun a c => a * 10 + (c - 48)) 0 ≤ 2 ^ 63 - 1 then
      some (s.foldl (fun a c => a * 10 + (c - 48)) 0)
    else none
  else none

/-- Go `strings.SplitN(s, " ", 2)`: the part before the first space and,
when a space exists, the remainder after it. -/
def splitFirst : List Nat → List Nat × Option (List Nat)
  | [] => ([], none)
  | c :: rest =>
    if c = 32 then ([], some rest)
    else
      let p := splitFirst rest
      (c :: p.1, p.2)

/-- The `reply` struct: one untagged reply record. -/
structure ReplyR where
  origin : List Nat := []
  type_ : List Nat := []
  length : List Nat := []
  content : List Nat := []
deriving DecidableEq, Repr

/-- The `feedStatus` enumeration of the Go parser. -/
inductive FeedStatus where
  | feedInit
  | feedStar
  | feedReply
  | feedReplyType
  | feedReplyLength
  | feedReplyContent
  | feedReplyMeet0d
  | feedStatusLine
  | feedStatusLineMeet0d
  | feedFinished
deriving DecidableEq, Repr

/-- The two error values `Feed` itself can return
(`"Parse response error, reply need a valid length number"` and
`"Need no more feed"`). -/
inductive FeedError where
  | invalidLength
  | fedPastCompletion
deriving DecidableEq, Repr

/-- The `Response` struct.  `err` holds the bytes given to `errors.New`
on a non-OK status line (the only place `Feed` sets `r.err`). -/
structure Response where
  id : List Nat := []
  status : List Nat := []
  err : Option (List Nat) := none
  replys : List ReplyR := []
  buf : List Nat := []
  feedStatus : FeedStatus := .feedInit
  parenthesisCount : Nat := 0
  reply : ReplyR := {}
deriving DecidableEq, Repr

/-- `NewResponse()`. -/
def NewResponse : Response := {}

/-- One iteration of the `for _, i := range input` loop body of
`Response.Feed`.  The second component is `none` when the loop
continues, and `some (finished, err)` when the Go code returns
from inside the loop. -/
def feedByte (r : Response) (b : Nat) : Response × Option (Bool × Option FeedError) :=
  match r.feedStatus with
  | .feedInit =>
    if b = 42 then ({ r with feedStatus := .feedStar }, none)
    else ({ r with feedStatus := .feedStatusLine, buf := r.buf ++ [b] }, none)
  | .feedStar =>
    if b ≠ 32 then
      ({ r with feedStatus := .feedReply,
                reply := { origin := [b], type_ := [], length := [], content := [] } }, none)
    else (r, none)
  | .feedReply =>
    if b = 13 then ({ r with feedStatus := .feedReplyMeet0d }, none)
    else if b = 40 then
      ({ r with feedStatus := .feedReplyType,
                reply := { r.reply with origin := r.reply.origin ++ [b] } }, none)
    else ({ r with reply := { r.reply with origin := r.reply.origin ++ [b] } }, none)
  | .feedReplyType =>
    if b = 41 then
      ({ r with feedStatus := .feedReply,
                reply := { r.reply with origin := r.reply.origin ++ [b] } }, none)
    else if b = 32 then
      if 0 < r.reply.type_.length then
        ({ r with feedStatus := .feedReplyLength,
                  reply := { r.reply with origin := r.reply.origin ++ [b] } }, none)
      else ({ r with reply := { r.reply with origin := r.reply.origin ++ [b] } }, none)
    else
      ({ r with reply := { r.reply with type_ := r.reply.type_ ++ [b],
                                        origin := r.reply.origin ++ [b] } }, none)
  | .feedReplyLength =>
    ({ r with feedStatus := if b = 10 then .feedReplyContent else .feedReplyLength,
              reply := { r.reply with
                origin := r.reply.origin ++ [b],
                length := if 48 ≤ b ∧ b ≤ 57 then r.reply.length ++ [b]
                          else r.reply.length } }, none)
  | .feedReplyContent =>
    let rp : ReplyR := { r.reply with origin := r.reply.origin ++ [b],
                                      content := r.reply.content ++ [b] }
    match atoiDigits rp.length with
    | none => ({ r with reply := rp }, some (false, some .invalidLength))
    | some n =>
      if rp.content.length = n then
        ({ r with feedStatus := .feedReply, reply := rp }, none)
      else ({ r with reply := rp }, none)
  | .feedReplyMeet0d =>
    if b = 10 then
      ({ r with feedStatus := .feedInit, replys := r.replys ++ [r.reply], buf := [] }, none)
    else
      ({ r with feedStatus := .feedReply,
                reply := { r.reply with origin := r.reply.origin ++ [b] } }, none)
  | .feedStatusLine =>
    if b = 13 then ({ r with feedStatus := .feedStatusLineMeet0d }, none)
    else ({ r with buf := r.buf ++ [b] }, none)
  | .feedStatusLineMeet0d =>
    if b = 10 then
      let p := splitFirst r.buf
      let newStatus := p.2.getD r.status
      ({ r with feedStatus := .feedFinished,
                id := p.1,
                status := newStatus,
                err := if newStatus.length < 3 ∨ newStatus.take 3 ≠ bytes "OK " then
                         some newStatus
                       else r.err },
       some (true, none))
    else
      ({ r with feedStatus := .feedStatusLine, buf := r.buf ++ [13, b] }, none)
  | .feedFinished => (r, some (true, some .fedPastCompletion))

/-- `Response.Feed` on a whole chunk: run `feedByte` over the bytes,
stopping early exactly where the Go code returns from inside the loop;
falling off the end returns `(false, nil)`. -/
def feed : Response → List Nat → Response × Bool × Option FeedError
  | r, [] => (r, false, none)
  | r, b :: rest =>
    match feedByte r b with
    | (r', none) => feed r' rest
    | (r', some out) => (r', out.1, out.2)

/-- The read-pump of `IMAPClient.Do`: feed chunks in order, stopping as
soon as `Feed` reports an error or completion. -/
def feedChunks : Response → List (List Nat) → Response × Bool × Option FeedError
  | r, [] => (r, false, none)
  | r, c :: cs =>
    let out := feed r c
    if out.2.1 = true ∨ out.2.2.isSome then out
    else feedChunks out.1 cs

/-- `s` encodes exactly one complete response: no proper prefix completes
or errors, and the full sequence completes without error. -/
def EncodesOneResponse (s : List Nat) : Prop :=
  (∀ n, n < s.length → (feed NewResponse (s.take n)).2 = (false, none)) ∧
  (feed NewResponse s).2 = (true, none)

/-- The Go loop never returns `(false, nil)` from inside its body: an
early return is an invalid-length error, a completion, or a
fed-past-completion error. -/
theorem feedByte_not_silent (r : Response) (b : Nat) :
    (feedByte r b).2 ≠ some (false, none) := by
  unfold feedByte
  cases r.feedStatus <;> dsimp only <;> (repeat' split) <;> simp_all

/-- If a chunk is consumed without an early return, feeding a longer
chunk continues from the state it reached. -/
theorem feed_append (a : List Nat) : ∀ (b : List Nat) (r r1 : Response),
    feed r a = (r1, false, none) → feed r (a ++ b) = feed r1 b := by
  induction a with
  | nil =>
    intro b r r1 h
    simp only [feed, Prod.mk.injEq] at h
    rw [List.nil_append, h.1]
  | cons x xs ih =>
    intro b r r1 h
    rcases hfb : feedByte r x with ⟨r', o⟩
    cases o with
    | none =>
      simp only [feed, hfb] at h
      simp only [List.cons_append, feed, hfb]
      exact ih b r' r1 h
    | some out =>
      exfalso
      simp only [feed, hfb, Prod.mk.injEq] at h
      have hns := feedByte_not_silent r x
      rw [hfb] at hns
      cases out with
      | mk o1 o2 => simp_all

/-- Feeding the remaining chunks from any cleanly reached prefix state
of a sequence that encodes one complete response lands on the
single-chunk result. -/
theorem feedChunks_from_prefix (s : List Nat) (henc : EncodesOneResponse s) :
    ∀ (cs : List (List Nat)) (acc : List Nat) (r : Response),
      acc ++ cs.flatten = s → feed NewResponse acc = (r, false, none) →
      feedChunks r cs = feed NewResponse s := by
  intro cs
  induction cs with
  | nil =>
    intro acc r hj hacc
    exfalso
    simp only [List.flatten_nil, List.append_nil] at hj
    subst hj
    have h2 := henc.2
    rw [hacc] at h2
    simp at h2
  | cons c cs ih =>
    intro acc r hj hacc
    have hfc : feed r c = feed NewResponse (acc ++ c) :=
      (feed_append acc c NewResponse r hacc).symm
    have hj' : (acc ++ c) ++ cs.flatten = s := by
      simpa [List.append_assoc] using hj
    by_cases hend : cs.flatten = []
    · have hs : acc ++ c = s := by simpa [hend] using hj'
      obtain ⟨R, hR⟩ : ∃ R, feed NewResponse s = (R, true, none) :=
        ⟨(feed NewResponse s).1, by rw [← henc.2]⟩
      have hfc' : feed r c = (R, true, none) := by rw [hfc, hs, hR]
      rw [hR]
      simp [feedChunks, hfc']
    · have hlt : (acc ++ c).length < s.length := by
        rw [← hj']
        simp only [List.length_append]
        have : 0 < cs.flatten.length := List.length_pos.mpr hend
        omega
      have htake : s.take (acc ++ c).length = acc ++ c := by
        rw [← hj']
        exact List.take_left _ _
      have hpre := henc.1 _ hlt
      rw [htake] at hpre
      obtain ⟨R, hR⟩ : ∃ R, feed NewResponse (acc ++ c) = (R, false, none) :=
        ⟨(feed NewResponse (acc ++ c)).1, by rw [← hpre]⟩
      have hfc' : feed r c = (R, false, none) := by rw [hfc, hR]
      have step : feedChunks r (c :: cs) = feedChunks R cs := by
        simp [feedChunks, hfc']
      rw [step]
      exact ih (acc ++ c) R hj' hR

/-- C1: for every byte sequence encoding one complete response, feeding
it split into chunks at any positions (in order, as the client read
pump does) produces exactly the single-chunk result: the same `id`
(tag), `status`, `err`, and the same ordered `replys` with identical
`origin`, `type_` and `content` fields — full state and return-value
equality. -/
theorem chunk_boundary_independence (s : List Nat) (cs : List (List Nat))
    (henc : EncodesOneResponse s) (hjoin : cs.flatten = s) :
    feedChunks NewResponse cs = feed NewResponse s :=
  feedChunks_from_prefix s henc cs [] NewResponse (by simpa using hjoin) rfl

/-- Witness for C1 at a concrete response split mid-line and mid-CRLF. -/
theorem chunk_boundary_independence_witness :
    EncodesOneResponse (bytes "* A\r\na1 OK x\r\n") ∧
    [bytes "* A\r", bytes "\na1 OK", bytes " x\r\n"].flatten = bytes "* A\r\na1 OK x\r\n" ∧
    feedChunks NewResponse [bytes "* A\r", bytes "\na1 OK", bytes " x\r\n"] =
      feed NewResponse (bytes "* A\r\na1 OK x\r\n") :=
  ⟨⟨by decide, by decide⟩, by decide,
    chunk_boundary_independence _ _ ⟨by decide, by decide⟩ (by decide)⟩

/-- C2 (amended): in `feedReplyContent` every byte — CR and LF included —
is appended uninterpreted to both `origin` and `content`, and the parser
returns to `feedReply` exactly when `content` reaches the parsed literal
length `n`; since the length check runs only after an append, this holds
for the remaining `n - c` bytes of any literal with `c < n`.  So any
declared length `n ≥ 1` that `strconv.Atoi` accepts (`atoiDigits … =
some n`, i.e. within the 64-bit int range) captures exactly `n` bytes
byte-for-byte; for `n = 0` the check never fires — see the
counterexample — and rejected length tokens error instead (C4). -/
theorem literalContent_exact_run (n : Nat) :
    ∀ (bs : List Nat) (r : Response),
      r.feedStatus = .feedReplyContent →
      atoiDigits r.reply.length = some n →
      r.reply.content.length < n →
      r.reply.content.length + bs.length = n →
      feed r bs =
        ({ r with feedStatus := .feedReply,
                  reply := { r.reply with origin := r.reply.origin ++ bs,
                                          content := r.reply.content ++ bs } },
         false, none) := by
  intro bs
  induction bs with
  | nil =>
    intro r h1 h2 h3 h4
    simp only [List.length_nil, Nat.add_zero] at h4
    omega
  | cons b rest ih =>
    intro r h1 h2 h3 h4
    by_cases hc : r.reply.content.length + 1 = n
    · have hrest : rest = [] := by
        simp only [List.length_cons] at h4
        have : rest.length = 0 := by omega
        exact List.length_eq_zero.mp this
      subst hrest
      have hfb : feedByte r b =
          ({ r with feedStatus := .feedReply,
                    reply := { r.reply with origin := r.reply.origin ++ [b],
                                            content := r.reply.content ++ [b] } }, none) := by
        simp only [feedByte, h1]
        rw [h2]
        simp [hc]
      rw [feed, hfb]
      simp [feed]
    · have hlt : r.reply.content.length + 1 < n := by
        simp only [List.length_cons] at h4
        omega
      have hfb : feedByte r b =
          ({ r with reply := { r.reply with origin := r.reply.origin ++ [b],
                                            content := r.reply.content ++ [b] } }, none) := by
        simp only [feedByte, h1]
        rw [h2]
        simp [hc]
      rw [feed, hfb]
      dsimp only
      have hrec := ih { r with reply := { r.reply with
                    origin := r.reply.origin ++ [b],
                    content := r.reply.content ++ [b] } }
        (by simp [h1]) (by simpa using h2) (by simpa using hlt)
        (by simp only [List.length_append, List.length_cons, List.length_nil]
            simp only [List.length_cons] at h4
            omega)
      rw [hrec]
      simp [List.append_assoc]

/-- C2 counterexample to the `n = 0` part of the claim: after
`"* X (T 0\r\n"` declares a zero-length literal, feeding the byte `Z`
leaves the parser still inside `feedReplyContent` with one captured
content byte, because the length check only runs after appending. -/
theorem literalContent_zero_counterexample :
    atoiDigits (feed NewResponse (bytes "* X (T 0\r\nZ")).1.reply.length = some 0 ∧
    (feed NewResponse (bytes "* X (T 0\r\nZ")).1.reply.content = bytes "Z" ∧
    (feed NewResponse (bytes "* X (T 0\r\nZ")).1.feedStatus = .feedReplyContent := by
  refine ⟨by decide, by decide, by decide⟩

/-- Witness for C2: a two-byte literal consisting of exactly CR LF is
consumed byte-for-byte and the parser returns to `feedReply`. -/
theorem literalContent_exact_run_witness :
    feed (feed NewResponse (bytes "* X (T 2\r\n")).1 [13, 10] =
      ({ (feed NewResponse (bytes "* X (T 2\r\n")).1 with
          feedStatus := .feedReply,
          reply := { (feed NewResponse (bytes "* X (T 2\r\n")).1.reply with
            origin := (feed NewResponse (bytes "* X (T 2\r\n")).1.reply.origin ++ [13, 10],
            content := (feed NewResponse (bytes "* X (T 2\r\n")).1.reply.content ++ [13, 10] } },
       false, none) :=
  literalContent_exact_run 2 [13, 10] _ (by decide) (by decide) (by decide) (by decide)

/-- Error field is untouched by any loop iteration that continues. -/
theorem feedByte_continue_err (r : Response) (b : Nat) :
    (feedByte r b).2 = none → (feedByte r b).1.err = r.err := by
  unfold feedByte
  cases r.feedStatus <;> dsimp only <;> (repeat' split) <;> simp_all

/-- On the completing iteration (return `(true, nil)`), starting from a
clean error field, the new error field is empty iff the parsed status
begins with `"OK "`, and otherwise holds exactly the status text. -/
theorem feedByte_complete_props (r : Response) (b : Nat) (he : r.err = none) :
    (feedByte r b).2 = some (true, none) →
      ((feedByte r b).1.err = none ↔
        3 ≤ (feedByte r b).1.status.length ∧
          (feedByte r b).1.status.take 3 = bytes "OK ") ∧
      (∀ m, (feedByte r b).1.err = some m → m = (feedByte r b).1.status) := by
  unfold feedByte
  cases r.feedStatus <;> dsimp only <;> (repeat' split) <;> simp_all
  rename_i hb hcond
  intro hge
  rcases hcond with hlt | hne
  · omega
  · exact hne

/-- Invariant form of the status/error correspondence, over any run that
reports completion without a feed error. -/
theorem feed_complete_err_inv :
    ∀ (s : List Nat) (r0 : Response), r0.err = none →
      ∀ (r : Response), feed r0 s = (r, true, none) →
        ((r.err = none ↔ 3 ≤ r.status.length ∧ r.status.take 3 = bytes "OK ") ∧
         ∀ m, r.err = some m → m = r.status) := by
  intro s
  induction s with
  | nil =>
    intro r0 he r h
    simp [feed, Prod.mk.injEq] at h
  | cons b rest ih =>
    intro r0 he r h
    rcases hfb : feedByte r0 b with ⟨r', o⟩
    cases o with
    | none =>
      simp only [feed, hfb] at h
      have herr' : r'.err = r0.err := by
        have := feedByte_continue_err r0 b (by rw [hfb])
        rwa [hfb] at this
      exact ih r' (herr'.trans he) r h
    | some out =>
      simp only [feed, hfb, Prod.mk.injEq] at h
      obtain ⟨h1, h2, h3⟩ := h
      have hout : out = (true, none) := by
        cases out
        simp_all
      have hc := feedByte_complete_props r0 b he
      rw [hfb] at hc
      simp only at hc
      subst h1 hout
      exact hc rfl

/-- C3 (amended): for every completed response, `err` is null iff the
status text begins with the success keyword followed by a space
(`"OK "` — a status of exactly `"OK"` is treated as a failure); when
`err` is non-null it equals the entire status text, i.e. the remainder
of the status line after the tag. -/
theorem terminalError_iff_status_ok (s : List Nat) (r : Response)
    (h : feed NewResponse s = (r, true, none)) :
    (r.err = none ↔ 3 ≤ r.status.length ∧ r.status.take 3 = bytes "OK ") ∧
    (∀ m, r.err = some m → m = r.status) :=
  feed_complete_err_inv s NewResponse rfl r h

/-- The first space-separated token of a byte string (used to state the
claim's "leading token"). -/
def leadingToken (s : List Nat) : List Nat := s.takeWhile (fun c => c != 32)

/-- C3 counterexample to the claim as stated: the status line
`"a1 OK\r\n"` has leading status token exactly `"OK"`, yet the parser
records a non-null error (the Go check demands the three bytes
`"OK "`). -/
theorem terminalError_counterexample :
    (feed NewResponse (bytes "a1 OK\r\n")).2 = (true, none) ∧
    leadingToken (feed NewResponse (bytes "a1 OK\r\n")).1.status = bytes "OK" ∧
    (feed NewResponse (bytes "a1 OK\r\n")).1.err = some (bytes "OK") := by
  refine ⟨by decide, by decide, by decide⟩

/-- Witness for C3 on a failing status line `"a1 NO bad\r\n"`. -/
theorem terminalError_iff_status_ok_witness :
    ((feed NewResponse (bytes "a1 NO bad\r\n")).1.err = none ↔
      3 ≤ (feed NewResponse (bytes "a1 NO bad\r\n")).1.status.length ∧
        (feed NewResponse (bytes "a1 NO bad\r\n")).1.status.take 3 = bytes "OK ") ∧
    (∀ m, (feed NewResponse (bytes "a1 NO bad\r\n")).1.err = some m →
      m = (feed NewResponse (bytes "a1 NO bad\r\n")).1.status) :=
  terminalError_iff_status_ok (bytes "a1 NO bad\r\n") _ (by decide)

/-- C4 (amended): in `feedReplyLength` a non-digit byte is skipped (the
digit accumulator is unchanged and the loop continues), so the framing
error depends only on the accumulated digits: it fires at the first
content byte exactly when `strconv.Atoi` rejects them — no digit at
all, or an all-digit value beyond the 64-bit int range (`ErrRange`).
In the error case the byte has been appended to the in-progress
record's `origin` and `content`, but the record is never appended, so
`replys` (and all other response fields) are unchanged and the
completed response captures no content; an accepted length raises no
error on a content byte. -/
theorem invalidLiteralLength_behaviour :
    (∀ (r : Response) (b : Nat), r.feedStatus = .feedReplyLength →
      ¬(48 ≤ b ∧ b ≤ 57) →
      (feedByte r b).1.reply.length = r.reply.length ∧ (feedByte r b).2 = none) ∧
    (∀ (r : Response) (b : Nat) (rest : List Nat),
      r.feedStatus = .feedReplyContent → atoiDigits r.reply.length = none →
      feed r (b :: rest) =
        ({ r with reply := { r.reply with origin := r.reply.origin ++ [b],
                                          content := r.reply.content ++ [b] } },
         false, some .invalidLength)) ∧
    (∀ (r : Response) (b n : Nat), r.feedStatus = .feedReplyContent →
      atoiDigits r.reply.length = some n → (feedByte r b).2 = none) := by
  refine ⟨?_, ?_, ?_⟩
  · intro r b h hnd
    simp [feedByte, h, hnd]
  · intro r b rest h1 h2
    have hfb : feedByte r b =
        ({ r with reply := { r.reply with origin := r.reply.origin ++ [b],
                                          content := r.reply.content ++ [b] } },
         some (false, some .invalidLength)) := by
      simp only [feedByte, h1]
      rw [h2]
    rw [feed, hfb]
  · intro r b n h1 h2
    simp only [feedByte, h1]
    rw [h2]
    (repeat' split) <;> simp_all

/-- C4 counterexample to the claim as stated: the literal-length token
`"1x"` is non-numeric, yet the parser raises no framing error — the
non-digit is skipped, the length parses as 1 — and one content byte is
captured into the completed response. -/
theorem invalidLiteralLength_counterexample :
    (feed NewResponse (bytes "* X (T 1x\r\nA)\r\na1 OK d\r\n")).2 = (true, none) ∧
    (feed NewResponse (bytes "* X (T 1x\r\nA)\r\na1 OK d\r\n")).1.replys.map
      (fun rp => rp.content) = [bytes "A"] := by
  refine ⟨by decide, by decide⟩

/-- Witness for C4: after `"* X (T x\r\n"` (length token with no digit)
and after a 20-digit length token beyond the int range, the next byte
produces the framing error with `replys` untouched; the skipped
non-digit and an accepted in-range length are also exercised. -/
theorem invalidLiteralLength_behaviour_witness :
    (feedByte (feed NewResponse (bytes "* X (T ")).1 120).1.reply.length =
      (feed NewResponse (bytes "* X (T ")).1.reply.length ∧
    (feedByte (feed NewResponse (bytes "* X (T ")).1 120).2 = none ∧
    feed (feed NewResponse (bytes "* X (T x\r\n")).1 [65] =
      ({ (feed NewResponse (bytes "* X (T x\r\n")).1 with
          reply := { (feed NewResponse (bytes "* X (T x\r\n")).1.reply with
            origin := (feed NewResponse (bytes "* X (T x\r\n")).1.reply.origin ++ [65],
            content := (feed NewResponse (bytes "* X (T x\r\n")).1.reply.content ++ [65] } },
       false, some .invalidLength) ∧
    feed (feed NewResponse (bytes "* X (T 99999999999999999999\r\n")).1 [65] =
      ({ (feed NewResponse (bytes "* X (T 99999999999999999999\r\n")).1 with
          reply := { (feed NewResponse
              (bytes "* X (T 99999999999999999999\r\n")).1.reply with
            origin := (feed NewResponse
              (bytes "* X (T 99999999999999999999\r\n")).1.reply.origin ++ [65],
            content := (feed NewResponse
              (bytes "* X (T 99999999999999999999\r\n")).1.reply.content ++ [65] } },
       false, some .invalidLength) ∧
    (feedByte (feed NewResponse (bytes "* X (T 7\r\n")).1 65).2 = none :=
  ⟨(invalidLiteralLength_behaviour.1 _ 120 (by decide) (by decide)).1,
   (invalidLiteralLength_behaviour.1 _ 120 (by decide) (by decide)).2,
   invalidLiteralLength_behaviour.2.1 _ 65 [] (by decide) (by decide),
   invalidLiteralLength_behaviour.2.1 _ 65 [] (by decide) (by decide),
   invalidLiteralLength_behaviour.2.2 _ 65 7 (by decide) (by decide)⟩

/-- C5: once the parser is in `feedFinished`, feeding any further bytes
returns immediately with the fed-past-completion framing error and a
completely unchanged response: `replys`, `id` and `status` are exactly
as recorded at completion. -/
theorem feedPastCompletion_unchanged (r : Response) (b : Nat) (rest : List Nat)
    (h : r.feedStatus = .feedFinished) :
    feed r (b :: rest) = (r, true, some .fedPastCompletion) := by
  rw [feed]
  simp [feedByte, h]

/-- Witness for C5: complete a response, then feed one more byte. -/
theorem feedPastCompletion_unchanged_witness :
    feed (feed NewResponse (bytes "a1 OK x\r\n")).1 [122] =
      ((feed NewResponse (bytes "a1 OK x\r\n")).1, true, some .fedPastCompletion) :=
  feedPastCompletion_unchanged _ 122 [] (by decide)

/-- C6 (amended): in `feedReplyMeet0d` a `\n` finalizes the current
record — it is appended to `replys`, the state resets to `feedInit` and
the status-line buffer is cleared — while any other byte `b` re-enters
`feedReply` with only `b` appended to `origin`: the pending CR byte is
dropped, not re-appended. -/
theorem replySawCR_transition (r : Response) (h : r.feedStatus = .feedReplyMeet0d) :
    feedByte r 10 =
      ({ r with feedStatus := .feedInit, replys := r.replys ++ [r.reply], buf := [] }, none) ∧
    (∀ b, b ≠ 10 → feedByte r b =
      ({ r with feedStatus := .feedReply,
                reply := { r.reply with origin := r.reply.origin ++ [b] } }, none)) := by
  constructor
  · simp [feedByte, h]
  · intro b hb
    simp [feedByte, h, hb]

/-- C6 counterexample to the claim as stated: in `"* A\rB\r\n"` the CR
before `B` is not a terminator, and the claim says both the CR and `B`
are re-appended to `origin`; the code drops the CR, recording origin
`"AB"` rather than `"A\rB"`. -/
theorem replySawCR_counterexample :
    (feed NewResponse (bytes "* A\rB\r\na1 OK x\r\n")).1.replys.map
      (fun rp => rp.origin) = [bytes "AB"] ∧
    [bytes "AB"] ≠ [bytes "A\rB"] := by
  refine ⟨by decide, by decide⟩

/-- Witness for C6 at the state reached by `"* A\r"`. -/
theorem replySawCR_transition_witness :
    feedByte (feed NewResponse (bytes "* A\r")).1 10 =
      ({ (feed NewResponse (bytes "* A\r")).1 with
          feedStatus := .feedInit,
          replys := (feed NewResponse (bytes "* A\r")).1.replys ++
            [(feed NewResponse (bytes "* A\r")).1.reply],
          buf := [] }, none) ∧
    (∀ b, b ≠ 10 → feedByte (feed NewResponse (bytes "* A\r")).1 b =
      ({ (feed NewResponse (bytes "* A\r")).1 with
          feedStatus := .feedReply,
          reply := { (feed NewResponse (bytes "* A\r")).1.reply with
            origin := (feed NewResponse (bytes "* A\r")).1.reply.origin ++ [b] } }, none)) :=
  replySawCR_transition _ (by decide)

/-- Decimal digit bytes of `n`, as Go `fmt` renders `%d`. -/
def natDecimal (n : Nat) : List Nat := (Nat.toDigits 10 n).map Char.toNat

/-- Go `%03d`: left-pad the decimal digits with `'0'` to width 3. -/
def pad3 (ds : List Nat) : List Nat := List.replicate (3 - ds.length) 48 ++ ds

/-- The tag rendered by `fmt.Sprintf("a%03d ...", c.count)`. -/
def tagBytes (n : Nat) : List Nat := 97 :: pad3 (natDecimal n)

/-- The full line `"<tag> <command-text>\r\n"` written by `Do`. -/
def commandLine (n : Nat) (cmd : List Nat) : List Nat :=
  tagBytes n ++ 32 :: (cmd ++ [13, 10])

/-- Issuing a sequence of commands on one session: `Do` increments the
session counter before rendering each line.  Returns the final counter
and the lines written, in order. -/
def issueAll : Nat → List (List Nat) → Nat × List (List Nat)
  | count, [] => (count, [])
  | count, cmd :: rest =>
    let out := issueAll (count + 1) rest
    (out.1, commandLine (count + 1) cmd :: out.2)

/-- Closed form of `issueAll`: from counter `c`, the lines carry the
consecutive tag numbers `c+1, c+2, …`. -/
theorem issueAll_eq (cmds : List (List Nat)) : ∀ c, issueAll c cmds =
    (c + cmds.length,
     List.zipWith commandLine (List.range' (c + 1) cmds.length) cmds) := by
  induction cmds with
  | nil => intro c; simp [issueAll]
  | cons cmd rest ih =>
    intro c
    simp only [issueAll, ih (c + 1), List.length_cons, List.range'_succ,
      List.zipWith_cons_cons]
    have h : c + 1 + rest.length = c + (rest.length + 1) := by omega
    rw [h]

/-- C7: from a fresh session (counter 0) the lines written for a
sequence of commands are exactly `"<tag> <command-text>\r\n"` with tag
numbers `1, 2, …` — starting at 1 and strictly increasing — and every
rendered tag begins with the byte `'a'` (97), distinct from the
untagged marker `'*'` (42). -/
theorem commandTags_monotonic_format (cmds : List (List Nat)) :
    (issueAll 0 cmds).2 = List.zipWith commandLine (List.range' 1 cmds.length) cmds ∧
    List.Pairwise (· < ·) (List.range' 1 cmds.length) ∧
    (∀ n, (tagBytes n).head? = some 97) ∧ (97 : Nat) ≠ 42 := by
  refine ⟨?_, List.pairwise_lt_range' 1 cmds.length, fun n => rfl, by decide⟩
  rw [issueAll_eq cmds 0]

/-- The keyword test of the `Search` loop:
`len(org) >= 6 && strings.ToUpper(org[:6]) == "SEARCH"`. -/
def SearchMatch (q : ReplyR) : Prop :=
  6 ≤ q.origin.length ∧ (q.origin.take 6).map upperByte = bytes "SEARCH"

instance (q : ReplyR) : Decidable (SearchMatch q) := by
  unfold SearchMatch; infer_instance

/-- The reply-scanning loop of `IMAPClient.Search` over `resp.Replys()`:
`some ids` models `return ids, nil` (with `some []` for Go's
`return nil, nil` on an empty trimmed identifier slice) and `none`
models falling off the loop to `errors.New("Invalid response")`. -/
def searchExtract : List ReplyR → Option (List (List Nat))
  | [] => none
  | rp :: rest =>
    if SearchMatch rp then
      if trimCut (rp.origin.drop 6) = [] then some []
      else some (splitSpace (trimCut (rp.origin.drop 6)))
    else searchExtract rest

/-- The three shapes of `Search`'s `([]string, error)` result. -/
inductive SearchOut where
  | respErr (msg : List Nat)
  | ids (l : List (List Nat))
  | invalidResponse
deriving DecidableEq, Repr

/-- `IMAPClient.Search` given the completed response: propagate
`resp.Error()`, otherwise scan the replies. -/
def SearchFn (resp : Response) : SearchOut :=
  match resp.err with
  | some e => .respErr e
  | none =>
    match searchExtract resp.replys with
    | some l => .ids l
    | none => .invalidResponse

theorem splitSpace_no_space : ∀ (t : List Nat), (∀ c ∈ t, c ≠ 32) →
    splitSpace t = [t] := by
  intro t
  induction t with
  | nil => intro _; rfl
  | cons c cs ih =>
    intro h
    have hc : ¬(c = 32) := h c (by simp)
    rw [splitSpace, if_neg hc, ih (fun d hd => h d (by simp [hd]))]

theorem splitSpace_token_append : ∀ (t rest' : List Nat), (∀ c ∈ t, c ≠ 32) →
    splitSpace (t ++ 32 :: rest') = t :: splitSpace rest' := by
  intro t
  induction t with
  | nil => intro rest' _; simp [splitSpace]
  | cons c cs ih =>
    intro rest' h
    have hc : ¬(c = 32) := h c (by simp)
    rw [List.cons_append, splitSpace, if_neg hc,
      ih rest' (fun d hd => h d (by simp [hd]))]

/-- `strings.Split` is a left inverse of the space join on space-free
tokens (empty tokens included, as in Go). -/
theorem splitSpace_joinSpace (toks : List (List Nat)) (hne : toks ≠ [])
    (h : ∀ t ∈ toks, ∀ c ∈ t, c ≠ 32) : splitSpace (joinSpace toks) = toks := by
  induction toks with
  | nil => exact absurd rfl hne
  | cons t ts ih =>
    cases ts with
    | nil => exact splitSpace_no_space t (h t (by simp))
    | cons t2 ts2 =>
      rw [show joinSpace (t :: t2 :: ts2) = t ++ 32 :: joinSpace (t2 :: ts2) from rfl,
        splitSpace_token_append t _ (h t (by simp)),
        ih (by simp) (fun u hu c hc => h u (by simp [hu]) c hc)]

theorem dropWhile_isCut_of_head (j : List Nat) (c : Nat)
    (hc : j.head? = some c) (hcc : isCut c = false) :
    j.dropWhile isCut = j := by
  cases j with
  | nil => rfl
  | cons a as =>
    simp only [List.head?_cons, Option.some.injEq] at hc
    subst hc
    simp [List.dropWhile, hcc]

/-- `strings.Trim(" " ++ j, " \t\n\r")` strips exactly the leading
space when `j` starts and ends with non-cutset bytes. -/
theorem trimCut_space_cons (j : List Nat) (c d : Nat)
    (hc : j.head? = some c) (hcc : isCut c = false)
    (hd : j.getLast? = some d) (hdd : isCut d = false) :
    trimCut (32 :: j) = j := by
  unfold trimCut
  rw [show (32 :: j).dropWhile isCut = j.dropWhile isCut by simp [List.dropWhile, isCut]]
  rw [dropWhile_isCut_of_head j c hc hcc]
  rw [dropWhile_isCut_of_head j.reverse d (by simpa using hd) hdd]
  exact List.reverse_reverse j

theorem joinSpace_cons_append (t : List Nat) (ts : List (List Nat)) :
    ∃ z, joinSpace (t :: ts) = t ++ z := by
  cases ts with
  | nil => exact ⟨[], by simp [joinSpace]⟩
  | cons t2 ts2 => exact ⟨32 :: joinSpace (t2 :: ts2), rfl⟩

theorem joinSpace_head? (t : List Nat) (ts : List (List Nat)) (ht : t ≠ []) :
    (joinSpace (t :: ts)).head? = t.head? := by
  obtain ⟨z, hz⟩ := joinSpace_cons_append t ts
  rw [hz]
  cases t with
  | nil => exact absurd rfl ht
  | cons a as => rfl

theorem joinSpace_ne_nil : ∀ (toks : List (List Nat)) (t : List Nat),
    toks.getLast? = some t → t ≠ [] → joinSpace toks ≠ [] := by
  intro toks
  induction toks with
  | nil => intro t h; simp at h
  | cons t0 ts ih =>
    intro t hlast ht
    cases ts with
    | nil =>
      simp only [List.getLast?_singleton, Option.some.injEq] at hlast
      subst hlast
      simpa [joinSpace] using ht
    | cons t1 ts1 =>
      rw [show joinSpace (t0 :: t1 :: ts1) = t0 ++ 32 :: joinSpace (t1 :: ts1) from rfl]
      simp

theorem joinSpace_getLast? : ∀ (toks : List (List Nat)) (t : List Nat),
    toks.getLast? = some t → t ≠ [] →
    (joinSpace toks).getLast? = t.getLast? := by
  intro toks
  induction toks with
  | nil => intro t h; simp at h
  | cons t0 ts ih =>
    intro t hlast ht
    cases ts with
    | nil =>
      simp only [List.getLast?_singleton, Option.some.injEq] at hlast
      subst hlast
      rfl
    | cons t1 ts1 =>
      have hlast' : (t1 :: ts1).getLast? = some t := by
        rwa [List.getLast?_cons_cons] at hlast
      rw [show joinSpace (t0 :: t1 :: ts1) = t0 ++ 32 :: joinSpace (t1 :: ts1) from rfl,
        List.getLast?_append_cons]
      have hne : joinSpace (t1 :: ts1) ≠ [] := joinSpace_ne_nil _ t hlast' ht
      cases hj : joinSpace (t1 :: ts1) with
      | nil => exact absurd hj hne
      | cons a as =>
        rw [List.getLast?_cons_cons, ← hj]
        exact ih t hlast' ht

theorem mem_of_getLast?_eq {A : Type} {l : List A} {x : A}
    (h : l.getLast? = some x) : x ∈ l := by
  obtain ⟨hne, heq⟩ := List.mem_getLast?_eq_getLast (Option.mem_def.mpr h)
  rw [heq]
  exact List.getLast_mem hne

theorem searchExtract_skip_all : ∀ (pre : List ReplyR),
    (∀ q ∈ pre, ¬SearchMatch q) →
    ∀ l, searchExtract (pre ++ l) = searchExtract l := by
  intro pre
  induction pre with
  | nil => intro _ l; rfl
  | cons q qs ih =>
    intro h l
    rw [List.cons_append, searchExtract, if_neg (h q (by simp))]
    exact ih (fun u hu => h u (by simp [hu])) l

/-- C8: over a successfully completed response, (1) when the first
keyword-matching reply's origin is the SEARCH keyword, a space, and
space-separated non-empty cutset-free identifiers, `Search` returns
exactly those identifiers in order; (2) when it is the bare keyword,
`Search` returns the empty identifier list with no error; (3) when no
reply matches the keyword, `Search` returns the invalid-response
(not-found) error — a constructor distinct from `ids []`. -/
theorem search_identifiers :
    (∀ (resp : Response) (pre rest : List ReplyR) (rp : ReplyR) (toks : List (List Nat)),
      resp.err = none →
      resp.replys = pre ++ rp :: rest →
      (∀ q ∈ pre, ¬SearchMatch q) →
      rp.origin = bytes "SEARCH " ++ joinSpace toks →
      toks ≠ [] →
      (∀ t ∈ toks, t ≠ [] ∧ ∀ c ∈ t, isCut c = false) →
      SearchFn resp = .ids toks) ∧
    (∀ (resp : Response) (pre rest : List ReplyR) (rp : ReplyR),
      resp.err = none →
      resp.replys = pre ++ rp :: rest →
      (∀ q ∈ pre, ¬SearchMatch q) →
      rp.origin = bytes "SEARCH" →
      SearchFn resp = .ids []) ∧
    (∀ (resp : Response),
      resp.err = none →
      (∀ q ∈ resp.replys, ¬SearchMatch q) →
      SearchFn resp = .invalidResponse) := by
  refine ⟨?_, ?_, ?_⟩
  · intro resp pre rest rp toks herr hreplys hpre horg htoksne htok
    -- normalize the origin into "SEARCH" ++ (32 :: joined)
    have horg' : rp.origin = bytes "SEARCH" ++ (32 :: joinSpace toks) := by
      rw [horg, show bytes "SEARCH " = bytes "SEARCH" ++ [32] from rfl,
        List.append_assoc]
      rfl
    -- the ends of the joined identifier list are non-cut bytes
    obtain ⟨t0, ts, rfl⟩ : ∃ t0 ts, toks = t0 :: ts := by
      cases toks with
      | nil => exact absurd rfl htoksne
      | cons a b => exact ⟨a, b, rfl⟩
    have ht0 := htok t0 (by simp)
    obtain ⟨c, hc⟩ : ∃ c, t0.head? = some c := by
      cases t0 with
      | nil => exact absurd rfl ht0.1
      | cons a as => exact ⟨a, rfl⟩
    have hcmem : c ∈ t0 := by
      cases t0 with
      | nil => simp at hc
      | cons a as => simp at hc; simp [hc]
    have hhead : (joinSpace (t0 :: ts)).head? = some c := by
      rw [joinSpace_head? t0 ts ht0.1, hc]
    obtain ⟨tl, htl⟩ : ∃ tl, (t0 :: ts).getLast? = some tl := by
      cases hl : (t0 :: ts).getLast? with
      | none => simp [List.getLast?_eq_none_iff] at hl
      | some a => exact ⟨a, rfl⟩
    have htlmem : tl ∈ t0 :: ts := mem_of_getLast?_eq htl
    have htltok := htok tl htlmem
    obtain ⟨d, hd⟩ : ∃ d, tl.getLast? = some d := by
      cases hl : tl.getLast? with
      | none => simp [List.getLast?_eq_none_iff] at hl; exact absurd hl htltok.1
      | some a => exact ⟨a, rfl⟩
    have hdmem : d ∈ tl := mem_of_getLast?_eq hd
    have hlast : (joinSpace (t0 :: ts)).getLast? = some d := by
      rw [joinSpace_getLast? _ tl htl htltok.1, hd]
    have htrim : trimCut (32 :: joinSpace (t0 :: ts)) = joinSpace (t0 :: ts) :=
      trimCut_space_cons _ c d hhead (ht0.2 c hcmem) hlast (htltok.2 d hdmem)
    have hjoinne : joinSpace (t0 :: ts) ≠ [] := joinSpace_ne_nil _ tl htl htltok.1
    have hsplit : splitSpace (joinSpace (t0 :: ts)) = t0 :: ts :=
      splitSpace_joinSpace _ (by simp)
        (fun u hu e he => by
          have := (htok u hu).2 e he
          intro h32
          subst h32
          simp [isCut] at this)
    -- the matching record takes the if-branch
    have hmatch : SearchMatch rp := by
      constructor
      · rw [horg', List.length_append]
        have h6 : (bytes "SEARCH").length = 6 := rfl
        omega
      · rw [horg', show (6 : Nat) = (bytes "SEARCH").length from rfl, List.take_left]
        decide
    have hdrop : rp.origin.drop 6 = 32 :: joinSpace (t0 :: ts) := by
      rw [horg', show (6 : Nat) = (bytes "SEARCH").length from rfl, List.drop_left]
    have hext : searchExtract (pre ++ rp :: rest) = some (t0 :: ts) := by
      rw [searchExtract_skip_all pre hpre, searchExtract, if_pos hmatch, hdrop,
        htrim, if_neg hjoinne, hsplit]
    unfold SearchFn
    rw [herr, hreplys, hext]
  · intro resp pre rest rp herr hreplys hpre horg
    have hmatch : SearchMatch rp := by
      constructor
      · rw [horg]; decide
      · rw [horg]; decide
    have hdrop : rp.origin.drop 6 = [] := by rw [horg]; decide
    have hext : searchExtract (pre ++ rp :: rest) = some [] := by
      rw [searchExtract_skip_all pre hpre, searchExtract, if_pos hmatch, hdrop]
      rfl
    unfold SearchFn
    rw [herr, hreplys, hext]
  · intro resp herr hnone
    have hext : searchExtract resp.replys = none := by
      have := searchExtract_skip_all resp.replys hnone []
      rwa [List.append_nil] at this
    unfold SearchFn
    rw [herr, hext]

/-- Witness for C8 on the spec's Scenario 2 reply `"SEARCH 1 2 3"` plus
the two edge shapes. -/
theorem search_identifiers_witness :
    SearchFn { err := none,
               replys := [{ origin := bytes "SEARCH 1 2 3" }] } =
      .ids [bytes "1", bytes "2", bytes "3"] ∧
    SearchFn { err := none, replys := [{ origin := bytes "SEARCH" }] } = .ids [] ∧
    SearchFn { err := none, replys := [{ origin := bytes "1 FETCH x" }] } =
      .invalidResponse :=
  ⟨search_identifiers.1 _ [] [] { origin := bytes "SEARCH 1 2 3" }
      [bytes "1", bytes "2", bytes "3"] rfl rfl (by simp) (by decide) (by decide)
      (by decide),
   search_identifiers.2.1 _ [] [] { origin := bytes "SEARCH" } rfl rfl (by simp) rfl,
   search_identifiers.2.2 _ rfl (by decide)⟩

/-- Outcome of `GetMessage`'s header-extraction step: Go checks
`headerResp.Error()` and then indexes `replys[0]` unconditionally —
there is no emptiness check and no not-found error path (unlike the
`errors.New("Invalid response")` paths of `Search` and `Fetch`); an
out-of-bounds index on empty `replys` (a Go runtime panic) is modelled
as `outOfRange`. -/
inductive HeaderFetchOut where
  | respErr (msg : List Nat)
  | outOfRange
  | header (content : List Nat)
deriving DecidableEq, Repr

/-- The `replys[0].content` access of `GetMessage` (imap.go line 155). -/
def getMessageHeaderStep (resp : Response) : HeaderFetchOut :=
  match resp.err with
  | some e => .respErr e
  | none =>
    match resp.replys with
    | [] => .outOfRange
    | rp :: _ => .header rp.content

/-- C9: for every successfully completed response carrying zero reply
records, `GetMessage`'s unchecked `replys[0]` is out of bounds rather
than a not-found error; and such responses are reachable — a fetch
answered by only the tagged OK status line completes successfully with
an empty `replys`. -/
theorem getMessage_headerIndex_unchecked :
    (∀ resp : Response, resp.err = none → resp.replys = [] →
      getMessageHeaderStep resp = .outOfRange) ∧
    (feed NewResponse (bytes "a1 OK done\r\n")).2 = (true, none) ∧
    (feed NewResponse (bytes "a1 OK done\r\n")).1.err = none ∧
    (feed NewResponse (bytes "a1 OK done\r\n")).1.replys = [] := by
  refine ⟨?_, by decide, by decide, by decide⟩
  intro resp he hr
  unfold getMessageHeaderStep
  rw [he, hr]

/-- Witness for C9 at the parsed empty-reply response. -/
theorem getMessage_headerIndex_unchecked_witness :
    getMessageHeaderStep (feed NewResponse (bytes "a1 OK done\r\n")).1 = .outOfRange :=
  getMessage_headerIndex_unchecked.1 _ (by decide) (by decide)

/-- Go `strings.Index(body, "\n")`: index of the first LF, `-1` if none. -/
def indexLF (s : List Nat) : Int :=
  match s.findIdx? (fun c => c == 10) with
  | some i => (i : Int)
  | none => -1

/-- `body[i+1:]` with `i = strings.Index(body, "\n")`; when there is no
line break, `i = -1` and this is `body[0:]`, the whole string. -/
def afterFirstLF (s : List Nat) : List Nat := s.drop (indexLF s + 1).toNat

/-- Outcome of `Fetch`'s reply scan. -/
inductive FetchOut where
  | found (body : List Nat)
  | respErr (msg : List Nat)
  | invalidResponse
  | sliceOutOfRange
deriving DecidableEq, Repr

/-- The reply loop of `IMAPClient.Fetch`: skip replies whose origin is
shorter than `id` or does not start with `id`; reslice past the id and
the following byte (`org[len(id)+1:]`, a Go slice-bounds panic when the
origin is exactly `id`, modelled as `sliceOutOfRange`); on a
case-normalized FETCH keyword return the content after its first line
break, otherwise keep scanning. -/
def fetchScan (id : List Nat) : List ReplyR → FetchOut
  | [] => .invalidResponse
  | rp :: rest =>
    if rp.origin.length < id.length ∨ rp.origin.take id.length ≠ id then
      fetchScan id rest
    else if rp.origin.length < id.length + 1 then .sliceOutOfRange
    else if 5 ≤ (rp.origin.drop (id.length + 1)).length ∧
        ((rp.origin.drop (id.length + 1)).take 5).map upperByte = bytes "FETCH" then
      .found (afterFirstLF rp.content)
    else fetchScan id rest

/-- `IMAPClient.Fetch` given the completed response. -/
def FetchFn (id : List Nat) (resp : Response) : FetchOut :=
  match resp.err with
  | some e => .respErr e
  | none => fetchScan id resp.replys

/-- `body[i+1:]` degrades to the whole string when no LF exists. -/
theorem afterFirstLF_of_no_newline (s : List Nat) (h : ∀ c ∈ s, c ≠ 10) :
    afterFirstLF s = s := by
  unfold afterFirstLF indexLF
  have hnone : s.findIdx? (fun c => c == 10) = none := by
    rw [List.findIdx?_eq_none_iff]
    intro x hx
    simp [h x hx]
  rw [hnone]
  norm_num

theorem fetchScan_skip_all (id : List Nat) : ∀ (pre : List ReplyR),
    (∀ q ∈ pre, q.origin.length < id.length ∨ q.origin.take id.length ≠ id) →
    ∀ l, fetchScan id (pre ++ l) = fetchScan id l := by
  intro pre
  induction pre with
  | nil => intro _ l; rfl
  | cons q qs ih =>
    intro h l
    rw [List.cons_append, fetchScan, if_pos (h q (by simp))]
    exact ih (fun u hu => h u (by simp [hu])) l

/-- C10: for a completed fetch response whose matching reply record's
content contains no newline byte, `Fetch` returns the entire content
unchanged — the "content after the first line break" extraction
degrades to offset zero instead of failing. -/
theorem fetch_content_no_newline (resp : Response) (pre rest : List ReplyR)
    (rp : ReplyR) (id tail : List Nat)
    (herr : resp.err = none)
    (hreplys : resp.replys = pre ++ rp :: rest)
    (hpre : ∀ q ∈ pre, q.origin.length < id.length ∨ q.origin.take id.length ≠ id)
    (horg : rp.origin = id ++ 32 :: tail)
    (hlen : 5 ≤ tail.length)
    (hkw : (tail.take 5).map upperByte = bytes "FETCH")
    (hnolf : ∀ c ∈ rp.content, c ≠ 10) :
    FetchFn id resp = .found rp.content := by
  have hlength : rp.origin.length = id.length + (tail.length + 1) := by
    rw [horg, List.length_append, List.length_cons]
  have hdrop : rp.origin.drop (id.length + 1) = tail := by
    rw [horg, show id ++ 32 :: tail = (id ++ [32]) ++ tail from by simp,
      show id.length + 1 = (id ++ [32]).length from by simp, List.drop_left]
  have htake : rp.origin.take id.length = id := by
    rw [horg]
    exact List.take_left id (32 :: tail)
  have hscan : fetchScan id (pre ++ rp :: rest) = .found (afterFirstLF rp.content) := by
    rw [fetchScan_skip_all id pre hpre, fetchScan,
      if_neg (by rw [htake, hlength]; simp),
      if_neg (by rw [hlength]; omega),
      if_pos (by rw [hdrop]; exact ⟨hlen, hkw⟩)]
  unfold FetchFn
  rw [herr, hreplys, hscan, afterFirstLF_of_no_newline rp.content hnolf]

/-- Witness for C10 on the spec's Scenario 3 record shape. -/
theorem fetch_content_no_newline_witness :
    FetchFn (bytes "4")
      { err := none,
        replys := [{ origin := bytes "4 FETCH (RFC822.TEXT {5}",
                     content := bytes "hello" }] } = .found (bytes "hello") :=
  fetch_content_no_newline _ [] [] _ (bytes "4") (bytes "FETCH (RFC822.TEXT {5}")
    rfl rfl (by simp) (by decide) (by decide) (by decide) (by decide)

/-- Scenario 3 end to end: the parser consumes the 5-byte literal by
count and `Fetch` returns it whole. -/
theorem fetch_scenario3 :
    FetchFn (bytes "4")
      (feed NewResponse
        (bytes "* 4 FETCH (RFC822.TEXT {5}\r\nhello)\r\na3 OK done\r\n")).1 =
      .found (bytes "hello") := by decide

/-- Scenario 2's data line parses into a single reply record whose
origin is the full `"SEARCH 1 2 3"` text. -/
theorem scenario2_parse :
    (feed NewResponse (bytes "* SEARCH 1 2 3\r\na2 OK done\r\n")).1.replys.map
      (fun rp => rp.origin) = [bytes "SEARCH 1 2 3"] := by decide

end Imap
